import Mathlib

/-!
Verification of the playback-synchronization and light-transition core of the
lights repository (a Spotify-driven LED visualizer).

The embedding translates, from the TypeScript source:
  - normalizeIntervals and the interval scan of Spotify._syncInterval
    (src/clients/spotify);
  - the Spotify poll/interval engine: _stageInterval, _incrementInterval,
    _fireInterval, _syncInterval, _stopTrack, _clearTrack, _getTrack,
    _startTrack, _getCurrentlyPlaying, _calculateTrackProgress;
  - Base.transitionBrightness of the LED client (src/clients/led/base) and
    BluetoothLED.setBrightness (src/clients/led);
  - the newSegment handler of src/index.ts.

Modelling conventions: JavaScript numbers are rationals; wall-clock readings
(Date.now()) are passed in explicitly as parameters; network fetches are
passed in as Except values; setTimeout handles are fresh natural-number ids
recorded in a pending-timer list, and firing a timer is an explicit step that
is only possible while the timer is pending (Node guarantees a cleared
timeout never runs, so timer deadlines are irrelevant to the claims and are
not tracked in the pending list).
-/

namespace Lights

/-- Time-interval object of the Spotify audio analysis: start and duration in
seconds in the raw data, in milliseconds after normalization. -/
structure TimeInterval where
  start : ℚ
  duration : ℚ
  confidence : ℚ
deriving DecidableEq

/-- Spotify track; of the SingleTrackResponse only the id and duration_ms
fields are read by the engine. -/
structure Track where
  id : String
  duration_ms : ℚ
deriving DecidableEq

/-- First mutation of normalizeIntervals: the first interval is forced to
start at zero, its duration absorbing the old start (the source mutates
duration first, using the old start, then zeroes start). -/
def fixFirstInterval : List TimeInterval → List TimeInterval
  | [] => []
  | i :: rest => { i with start := 0, duration := i.start + i.duration } :: rest

/-- Second mutation of normalizeIntervals: the last interval's duration is
forced so that the interval ends at the end of the track, durSec being
track.duration_ms / 1000. -/
def fixLastInterval (durSec : ℚ) : List TimeInterval → List TimeInterval
  | [] => []
  | [i] => [{ i with duration := durSec - i.start }]
  | i :: j :: rest => i :: fixLastInterval durSec (j :: rest)

/-- Final map of normalizeIntervals: convert every time value from seconds to
milliseconds. -/
def scaleToMs (i : TimeInterval) : TimeInterval :=
  { i with start := i.start * 1000, duration := i.duration * 1000 }

/-- normalizeIntervals from src/clients/spotify: forces the first interval to
start at zero and the last to end at the track end, then converts seconds to
milliseconds.  The source indexes intervals[0] unconditionally and therefore
faults on an empty array; the claims about this function are stated for
non-empty input. -/
def normalizeIntervals (track : Track) (intervals : List TimeInterval) : List TimeInterval :=
  (fixLastInterval (track.duration_ms / 1000) (fixFirstInterval intervals)).map scaleToMs

/-- Contiguity of an interval sequence, stated for the normalization claims:
every interval ends exactly where the next one starts. -/
def ContiguousSeq : List TimeInterval → Prop
  | [] => True
  | [_] => True
  | a :: b :: rest => a.start + a.duration = b.start ∧ ContiguousSeq (b :: rest)

/-- The scan loop of Spotify._syncInterval: the first index i (counting from
the accumulator) whose interval contains the position, none if no interval
does. -/
def findActiveIndex (progress : ℚ) : List TimeInterval → ℕ → Option ℕ
  | [], _ => none
  | iv :: rest, i =>
    if iv.start ≤ progress ∧ progress < iv.start + iv.duration then some i
    else findActiveIndex progress rest (i + 1)

/-- Resulting activeIndex of the Spotify._syncInterval scan: the first
matching index, or the previous activeIndex unchanged when no interval
contains the position (the source for-loop simply never assigns). -/
def syncActiveIndex (progress : ℚ) (intervals : List TimeInterval) (activeIndex : ℕ) : ℕ :=
  (findActiveIndex progress intervals 0).getD activeIndex

/-- d3Interpolate.interpolateNumber a b evaluated at t. -/
def interpolateNumber (a b t : ℚ) : ℚ := a * (1 - t) + b * t

/-- The while-loop of Base.transitionBrightness (src/clients/led/base).
currentTime is the latest Date.now() reading; times are the successive
Date.now() readings observed after each sleep.  Each iteration emits the
value passed to this.setBrightness.  The model stops when the supplied time
trace runs out, which only truncates the ramp. -/
def brightnessRampValues (startB endB lengthMs delayMs startTime : ℚ) :
    ℚ → List ℚ → List ℚ
  | currentTime, [] =>
    if currentTime < startTime + lengthMs - delayMs then
      [interpolateNumber startB endB ((currentTime - startTime) / lengthMs)]
    else []
  | currentTime, t :: ts =>
    if currentTime < startTime + lengthMs - delayMs then
      interpolateNumber startB endB ((currentTime - startTime) / lengthMs) ::
        brightnessRampValues startB endB lengthMs delayMs startTime t ts
    else []

/-- Observable outcome of one Base.transitionBrightness call. -/
structure TransitionResult where
  warnedLocked : Bool
  thrown : Option String
  commands : List ℚ
  lockAfter : Bool
deriving DecidableEq

/-- Base.transitionBrightness (src/clients/led/base, current revision with the
transition lock).  lockBefore is this.brightnessTransitionLock on entry;
startTime is the Date.now() reading taken for startTime, currentTime0 the one
taken for the initial currentTime, times the later readings.
Faithful control flow: when the lock is already held the source only logs the
skip warning (there is no return statement), then unconditionally sets the
lock, then validates the 0..1 brightness range (throwing leaves the lock
set), then runs the ramp and finally clears the lock. -/
def transitionBrightness (lockBefore : Bool) (startB endB lengthMs delayMs : ℚ)
    (startTime currentTime0 : ℚ) (times : List ℚ) : TransitionResult :=
  let warned := lockBefore
  if startB < 0 ∨ 1 < startB then
    { warnedLocked := warned, thrown := some ("invalid start brightness"),
      commands := [], lockAfter := true }
  else if endB < 0 ∨ 1 < endB then
    { warnedLocked := warned, thrown := some ("invalid end brightness"),
      commands := [], lockAfter := true }
  else
    { warnedLocked := warned, thrown := none,
      commands := brightnessRampValues startB endB lengthMs delayMs startTime currentTime0 times,
      lockAfter := false }

/-- BluetoothLED.setBrightness (src/clients/led): interprets its argument on a
0..100 scale, rejects values outside it, and sends floor(value / 100 * 255)
on the wire. -/
def bluetoothSetBrightness (value : ℚ) : Except String ℤ :=
  let brightness := value / 100
  if 1 < brightness ∨ brightness < 0 then .error ("invalid brightness")
  else .ok ⌊brightness * 255⌋

/-- Segment object of the Spotify audio analysis (the fields the newSegment
handler reads). -/
structure Segment where
  start : ℚ
  duration : ℚ
  confidence : ℚ
  loudness_start : ℚ
  loudness_max : ℚ
  loudness_max_time : ℚ
  loudness_end : ℚ
  pitches : List ℚ
  timbre : List ℚ
deriving DecidableEq

/-- Brightness value the newSegment handler of src/index.ts computes from a
segment's loudness: Math.abs(loudness_start + 50) / 100, with no clamping. -/
def segmentBrightnessArg (loudness_start : ℚ) : ℚ := |loudness_start + 50| / 100

/-- Arguments of the transitionBrightness call issued by the newSegment
handler of src/index.ts for a (current, next) segment pair: start brightness,
end brightness, and ramp length 0.95 times the current segment's duration. -/
def onNewSegmentBrightnessCall (current next : Segment) : ℚ × ℚ × ℚ :=
  (segmentBrightnessArg current.loudness_start,
   segmentBrightnessArg next.loudness_start,
   current.duration * (95 / 100))

/-- The five interval granularities of an audio analysis. -/
inductive Kind
  | bars
  | beats
  | sections
  | segments
  | tatums
deriving DecidableEq

/-- Raw audio-analysis payload fetched from Spotify.  Sections and segments
carry extra attributes in the source; only their TimeInterval part drives
scheduling, so all five granularities are modelled at TimeInterval. -/
structure AudioAnalysis where
  bars : List TimeInterval
  beats : List TimeInterval
  sections : List TimeInterval
  segments : List TimeInterval
  tatums : List TimeInterval
deriving DecidableEq

/-- Per-granularity scheduling state: the AudioAnalysisWithInterval entry of
the source, with the setTimeout handle modelled as a timer id. -/
structure IntervalData where
  activeIndex : ℕ
  intervals : List TimeInterval
  nextIntervalTimeout : Option ℕ
deriving DecidableEq

/-- The five per-granularity entries of currentTrackAnalysis. -/
structure AudioAnalysisWithInterval where
  bars : IntervalData
  beats : IntervalData
  sections : IntervalData
  segments : IntervalData
  tatums : IntervalData
deriving DecidableEq

/-- Field access of currentTrackAnalysis by granularity. -/
def AudioAnalysisWithInterval.get : AudioAnalysisWithInterval → Kind → IntervalData
  | a, .bars => a.bars
  | a, .beats => a.beats
  | a, .sections => a.sections
  | a, .segments => a.segments
  | a, .tatums => a.tatums

/-- Field update of currentTrackAnalysis by granularity. -/
def AudioAnalysisWithInterval.set : AudioAnalysisWithInterval → Kind → IntervalData → AudioAnalysisWithInterval
  | a, .bars, d => { a with bars := d }
  | a, .beats, d => { a with beats := d }
  | a, .sections, d => { a with sections := d }
  | a, .segments, d => { a with segments := d }
  | a, .tatums, d => { a with tatums := d }

/-- Events emitted by the Spotify client.  The five per-granularity events
(newBar, newBeat, newSection, newSegment, newTatum) are modelled uniformly as
newInterval tagged with the granularity; current is intervals[activeIndex]
(an out-of-range index yields none) and next is intervals[activeIndex+1] or
none. -/
inductive SpotifyEvent
  | newInterval (kind : Kind) (current : Option TimeInterval) (next : Option TimeInterval)
  | trackChange (track : Track)
  | trackStopped
deriving DecidableEq

/-- State of the Spotify class relevant to the synchronization engine.
pendingTimers holds the scheduled-but-unfired interval timeouts as
(id, granularity) pairs, ids allocated from nextTimerId.  The ping timeout is
reported as a Bool by getCurrentlyPlayingOp and the 10 ms progress ticker is
modelled by calculateTrackProgressOp, so neither appears in pendingTimers. -/
structure SpotifyState where
  currentTrackOffsetThreshold : ℚ
  currentTrack : Option Track
  currentTrackAnalysis : Option AudioAnalysisWithInterval
  currentTrackProgress : ℚ
  currentTrackStartTime : ℚ
  currentTrackStartOffset : ℚ
  nextTimerId : ℕ
  pendingTimers : List (ℕ × Kind)
deriving DecidableEq

/-- Constructor state of the Spotify class: no track, threshold 100 ms. -/
def initialSpotifyState : SpotifyState :=
  { currentTrackOffsetThreshold := 100
    currentTrack := none
    currentTrackAnalysis := none
    currentTrackProgress := 0
    currentTrackStartTime := 0
    currentTrackStartOffset := 0
    nextTimerId := 0
    pendingTimers := [] }

/-- clearTimeout: the timer with the given id (if still pending) will never
fire. -/
def clearTimeoutOp (id : ℕ) (s : SpotifyState) : SpotifyState :=
  { s with pendingTimers := s.pendingTimers.filter (fun p => decide (p.1 ≠ id)) }

/-- Spotify._getInterval: throws when no track analysis is loaded. -/
def getIntervalOp (s : SpotifyState) (kind : Kind) : Except String IntervalData :=
  match s.currentTrackAnalysis with
  | none => .error ("current track not set!")
  | some a => .ok (a.get kind)

/-- Functional counterpart of the source's in-place mutation of one
granularity's entry of currentTrackAnalysis. -/
def setIntervalData (s : SpotifyState) (kind : Kind) (d : IntervalData) : SpotifyState :=
  { s with currentTrackAnalysis := s.currentTrackAnalysis.map (fun a => a.set kind d) }

/-- Spotify._calculateNextTimeout: remaining time of the active interval.
The value is returned for documentation of the clock model; it is the delay
the source passes to setTimeout. -/
def calculateNextTimeoutOp (s : SpotifyState) (kind : Kind) : Except String ℚ := do
  let d ← getIntervalOp s kind
  match d.intervals.get? d.activeIndex with
  | none => .error ("active interval out of range")
  | some active => .ok (active.duration - (s.currentTrackProgress - active.start))

/-- Spotify._stageInterval: allocates a fresh timeout for the granularity and
records its handle in nextIntervalTimeout. -/
def stageIntervalOp (kind : Kind) (s : SpotifyState) : Except String SpotifyState := do
  let d ← getIntervalOp s kind
  let id := s.nextTimerId
  let s1 := { s with nextTimerId := s.nextTimerId + 1,
                     pendingTimers := (id, kind) :: s.pendingTimers }
  .ok (setIntervalData s1 kind { d with nextIntervalTimeout := some id })

/-- Spotify._incrementInterval: terminal at the last interval, otherwise
stages the next timeout and advances the cursor. -/
def incrementIntervalOp (kind : Kind) (s : SpotifyState) : Except String SpotifyState := do
  let d ← getIntervalOp s kind
  if d.activeIndex = d.intervals.length - 1 then
    .ok s
  else do
    let s1 ← stageIntervalOp kind s
    let d1 ← getIntervalOp s1 kind
    .ok (setIntervalData s1 kind { d1 with activeIndex := d1.activeIndex + 1 })

/-- Spotify._fireInterval: emits the granularity's event carrying
(current, next-or-none), then increments. -/
def fireIntervalOp (kind : Kind) (s : SpotifyState) : Except String (SpotifyState × List SpotifyEvent) := do
  let d ← getIntervalOp s kind
  let ev : SpotifyEvent :=
    .newInterval kind (d.intervals.get? d.activeIndex) (d.intervals.get? (d.activeIndex + 1))
  let s1 ← incrementIntervalOp kind s
  .ok (s1, [ev])

/-- One firing step of the Node timer queue: a scheduled interval timeout may
run only while it is pending; it is removed from the queue and its callback
(_fireInterval) runs.  Running a cleared or already-fired timer is a no-op
that emits nothing. -/
def runTimer (t : ℕ × Kind) (s : SpotifyState) : Except String (SpotifyState × List SpotifyEvent) :=
  if t ∈ s.pendingTimers then
    fireIntervalOp t.2 { s with pendingTimers := s.pendingTimers.filter (fun p => decide (p ≠ t)) }
  else .ok (s, [])

/-- Spotify._syncInterval: scans for the interval containing the current
progress (leaving the cursor unchanged when none does) and stages the
timeout. -/
def syncIntervalOp (kind : Kind) (s : SpotifyState) : Except String SpotifyState := do
  let d ← getIntervalOp s kind
  let d1 := { d with activeIndex := syncActiveIndex s.currentTrackProgress d.intervals d.activeIndex }
  stageIntervalOp kind (setIntervalData s kind d1)

/-- Spotify._calculateTrackProgress at a wall-clock reading: position is
startOffset plus elapsed time since the anchor. -/
def calculateTrackProgressOp (now : ℚ) (s : SpotifyState) : Except String SpotifyState :=
  if s.currentTrackStartTime = 0 then .error ("track has not started!")
  else .ok { s with currentTrackProgress :=
              s.currentTrackStartOffset + (now - s.currentTrackStartTime) }

/-- Spotify._stopTrack for one granularity: clearTimeout on the recorded
handle, if any. -/
def stopTrackKind (kind : Kind) (s : SpotifyState) : SpotifyState :=
  match s.currentTrackAnalysis with
  | none => s
  | some a =>
    match (a.get kind).nextIntervalTimeout with
    | some id => clearTimeoutOp id s
    | none => s

/-- Spotify._stopTrack: clears the progress ticker (not tracked here) and the
pending interval timeout of every granularity, in field order. -/
def stopTrackOp (s : SpotifyState) : SpotifyState :=
  stopTrackKind .tatums (stopTrackKind .segments (stopTrackKind .sections
    (stopTrackKind .beats (stopTrackKind .bars s))))

/-- Spotify._clearTrack. -/
def clearTrackOp (s : SpotifyState) : SpotifyState :=
  { s with currentTrack := none, currentTrackAnalysis := none,
           currentTrackProgress := 0, currentTrackStartTime := 0 }

/-- Spotify._getTrack with the two fetched payloads passed in: stores the
track, builds currentTrackAnalysis with normalized intervals and zeroed
cursors, and emits trackChange. -/
def getTrackOp (track : Track) (analysis : AudioAnalysis) (s : SpotifyState) :
    SpotifyState × List SpotifyEvent :=
  let s1 := { s with
    currentTrack := some track,
    currentTrackAnalysis := some
      { bars := { activeIndex := 0,
                  intervals := normalizeIntervals track analysis.bars,
                  nextIntervalTimeout := none }
        beats := { activeIndex := 0,
                   intervals := normalizeIntervals track analysis.beats,
                   nextIntervalTimeout := none }
        sections := { activeIndex := 0,
                      intervals := normalizeIntervals track analysis.sections,
                      nextIntervalTimeout := none }
        segments := { activeIndex := 0,
                      intervals := normalizeIntervals track analysis.segments,
                      nextIntervalTimeout := none }
        tatums := { activeIndex := 0,
                    intervals := normalizeIntervals track analysis.tatums,
                    nextIntervalTimeout := none } } }
  (s1, [.trackChange track])

/-- Spotify._startTrack: anchors the clock (offset, progress, wall-clock
start) and syncs all five granularities; throws when no track is set.  The
10 ms progress ticker it also starts is modelled by
calculateTrackProgressOp. -/
def startTrackOp (start now : ℚ) (s : SpotifyState) : Except String SpotifyState :=
  match s.currentTrack with
  | none => .error ("current track not set!")
  | some _ => do
    let s1 := { s with currentTrackStartOffset := start,
                       currentTrackProgress := start,
                       currentTrackStartTime := now }
    let s2 ← syncIntervalOp .bars s1
    let s3 ← syncIntervalOp .beats s2
    let s4 ← syncIntervalOp .sections s3
    let s5 ← syncIntervalOp .segments s4
    syncIntervalOp .tatums s5

/-- Body of the currently-playing response the poll reads: item carries the
playing track's id (the source reads item.id), is_playing and progress_ms as
returned by the API. -/
structure CurrentlyPlayingResponse where
  item : Option String
  is_playing : Bool
  progress_ms : Option ℚ
deriving DecidableEq

/-- New-track path of Spotify._getCurrentlyPlaying: stop and clear the old
track, fetch track plus analysis, start at the compensated position, then
schedule the next ping (the Bool of the result). -/
def newTrackFlowOp (itemId : String) (progressMs startNow : ℚ)
    (fetchTrack : String → Except String (Track × AudioAnalysis))
    (s : SpotifyState) : Except String (SpotifyState × List SpotifyEvent × Bool) := do
  let s1 := clearTrackOp (stopTrackOp s)
  let (track, analysis) ← fetchTrack itemId
  let (s2, evs) := getTrackOp track analysis s1
  let s3 ← startTrackOp progressMs startNow s2
  .ok (s3, evs, true)

/-- Spotify._getCurrentlyPlaying.  fetchPlaying is the awaited
getMyCurrentPlayingTrack result (an Except: the source has no try/catch, so a
rejection propagates out of the poll tick); now is the Date.now() reading
taken before the fetch, later the one taken after it (used for latency
compensation), startNow the one _startTrack takes.  The Bool of the result
records whether _pingSpotify scheduled the next poll tick. -/
def getCurrentlyPlayingOp
    (fetchPlaying : Except String CurrentlyPlayingResponse)
    (fetchTrack : String → Except String (Track × AudioAnalysis))
    (now later startNow : ℚ)
    (s : SpotifyState) : Except String (SpotifyState × List SpotifyEvent × Bool) := do
  let resp ← fetchPlaying
  match resp.is_playing, resp.item, resp.progress_ms with
  | true, some itemId, some resProgressMs =>
    let progressMs := resProgressMs + (later - now)
    match s.currentTrack with
    | none => newTrackFlowOp itemId progressMs startNow fetchTrack s
    | some t =>
      if t.id ≠ itemId then
        newTrackFlowOp itemId progressMs startNow fetchTrack s
      else if s.currentTrackOffsetThreshold < |s.currentTrackProgress - progressMs| then do
        let s1 := stopTrackOp s
        let s2 ← startTrackOp progressMs startNow s1
        .ok (s2, [], true)
      else
        .ok (s, [], true)
  | _, _, _ =>
    let evs : List SpotifyEvent :=
      if s.currentTrack.isSome then [.trackStopped] else []
    .ok (clearTrackOp (stopTrackOp s), evs, true)

/-- A currently-playing response reporting the given track id playing at the
given raw progress. -/
def playingResponse (itemId : String) (resProgressMs : ℚ) : CurrentlyPlayingResponse :=
  { item := some itemId, is_playing := true, progress_ms := some resProgressMs }

/-- Whether a poll tick scheduled the next tick: a propagated rejection never
reaches _pingSpotify. -/
def pollRescheduled : Except String (SpotifyState × List SpotifyEvent × Bool) → Bool
  | .ok (_, _, b) => b
  | .error _ => false

/-- Timer-bookkeeping invariant the source maintains: every pending interval
timeout is the one recorded in its granularity's nextIntervalTimeout
field. -/
def TimerInv (s : SpotifyState) : Prop :=
  ∀ p ∈ s.pendingTimers,
    s.currentTrackAnalysis.map (fun a => (a.get p.2).nextIntervalTimeout) = some (some p.1)

/-- Id-freshness invariant: every pending timer was allocated below
nextTimerId. -/
def TimerIdInv (s : SpotifyState) : Prop :=
  ∀ p ∈ s.pendingTimers, p.1 < s.nextTimerId

/-- Raw interval sequence with an interior gap: the second interval starts at
2 s while the first ends at 1 s. -/
def exGapIntervals : List TimeInterval :=
  [{ start := 1/2, duration := 1/2, confidence := 1 },
   { start := 2, duration := 1, confidence := 1 },
   { start := 3, duration := 1, confidence := 1 }]

/-- A contiguous raw interval sequence (values in seconds). -/
def exContiguousIntervals : List TimeInterval :=
  [{ start := 1/2, duration := 3/2, confidence := 1 },
   { start := 2, duration := 1, confidence := 1 },
   { start := 3, duration := 1, confidence := 1 }]

/-- A 4-second track. -/
def exTrack : Track := { id := "track1", duration_ms := 4000 }

/-- Two normalized (millisecond) intervals covering 0..2000 ms. -/
def exMsIntervals : List TimeInterval :=
  [{ start := 0, duration := 1000, confidence := 1 },
   { start := 1000, duration := 1000, confidence := 1 }]

/-- A segment whose loudness_start is 60 dB, making
abs(loudness_start + 50) / 100 = 1.1 exceed the valid brightness range. -/
def exLoudSegment : Segment :=
  { start := 0, duration := 1000, confidence := 1, loudness_start := 60,
    loudness_max := 0, loudness_max_time := 0, loudness_end := 0,
    pitches := [1, 1, 1, 1, 1, 1, 1, 1, 1, 1, 1, 1], timbre := [] }

/-- The following segment. -/
def exNextSegment : Segment :=
  { exLoudSegment with start := 1000, loudness_start := -20 }

/-- Per-granularity data of the concrete engine state used as witness. -/
def wIntervalData : IntervalData :=
  { activeIndex := 0, intervals := exMsIntervals, nextIntervalTimeout := none }

/-- Concrete analysis: the bars granularity has a staged timeout with id 0,
the other granularities none. -/
def wAnalysis : AudioAnalysisWithInterval :=
  { bars := { wIntervalData with nextIntervalTimeout := some 0 }
    beats := wIntervalData
    sections := wIntervalData
    segments := wIntervalData
    tatums := wIntervalData }

/-- Concrete 2-second track. -/
def wTrack : Track := { id := "track1", duration_ms := 2000 }

/-- Concrete engine state: wTrack playing, progress 500 ms, one pending bars
timeout with id 0, next id 1. -/
def wState : SpotifyState :=
  { currentTrackOffsetThreshold := 100
    currentTrack := some wTrack
    currentTrackAnalysis := some wAnalysis
    currentTrackProgress := 500
    currentTrackStartTime := 10
    currentTrackStartOffset := 0
    nextTimerId := 1
    pendingTimers := [(0, Kind.bars)] }

/-!  Theorems. -/

/-- A linear interpolation evaluated inside the unit parameter range stays
between the two endpoints. -/
theorem interpolateNumber_bounds (a b t : ℚ) (h0 : 0 ≤ t) (h1 : t ≤ 1) :
    min a b ≤ interpolateNumber a b t ∧ interpolateNumber a b t ≤ max a b := by
  unfold interpolateNumber
  constructor
  · calc min a b = min a b * (1 - t) + min a b * t := by ring
    _ ≤ a * (1 - t) + b * t :=
        add_le_add (mul_le_mul_of_nonneg_right (min_le_left _ _) (by linarith))
          (mul_le_mul_of_nonneg_right (min_le_right _ _) h0)
  · calc a * (1 - t) + b * t
        ≤ max a b * (1 - t) + max a b * t :=
          add_le_add (mul_le_mul_of_nonneg_right (le_max_left _ _) (by linarith))
            (mul_le_mul_of_nonneg_right (le_max_right _ _) h0)
    _ = max a b := by ring

/-- Every value the transitionBrightness while-loop emits is an interpolation
at a parameter in the unit range, hence between the endpoint
brightnesses. -/
theorem brightnessRampValues_bounded (startB endB lengthMs delayMs startTime : ℚ)
    (hdelay : 0 ≤ delayMs) :
    ∀ (times : List ℚ) (ct : ℚ), startTime ≤ ct → (∀ t ∈ times, startTime ≤ t) →
      ∀ b ∈ brightnessRampValues startB endB lengthMs delayMs startTime ct times,
        min startB endB ≤ b ∧ b ≤ max startB endB := by
  intro times
  induction times with
  | nil =>
    intro ct hct _ b hb
    by_cases hc : ct < startTime + lengthMs - delayMs
    · simp only [brightnessRampValues, if_pos hc, List.mem_singleton] at hb
      subst hb
      have hlen : 0 < lengthMs := by linarith
      exact interpolateNumber_bounds _ _ _
        (div_nonneg (by linarith) hlen.le)
        ((div_le_one hlen).mpr (by linarith))
    · simp [brightnessRampValues, if_neg hc] at hb
  | cons t ts ih =>
    intro ct hct htimes b hb
    by_cases hc : ct < startTime + lengthMs - delayMs
    · simp only [brightnessRampValues, if_pos hc, List.mem_cons] at hb
      rcases hb with hb | hb
      · subst hb
        have hlen : 0 < lengthMs := by linarith
        exact interpolateNumber_bounds _ _ _
          (div_nonneg (by linarith) hlen.le)
          ((div_le_one hlen).mpr (by linarith))
      · exact ih t (htimes t (List.mem_cons_self t ts))
          (fun x hx => htimes x (List.mem_cons_of_mem t hx)) b hb
    · simp [brightnessRampValues, if_neg hc] at hb

/-- Claim C10: for transitionBrightness with start and end brightness in the
0..1 range, every value the ramp passes to setBrightness lies between
min(start, end) and max(start, end) inclusive, thus never exceeds 1, and is
accepted by BluetoothLED.setBrightness, which interprets its argument on a
0..100 scale. -/
theorem transitionBrightness_ramp_in_range (startB endB lengthMs delayMs startTime ct0 : ℚ)
    (times : List ℚ) (lockBefore : Bool)
    (hs0 : 0 ≤ startB) (hs1 : startB ≤ 1) (he0 : 0 ≤ endB) (he1 : endB ≤ 1)
    (hdelay : 0 ≤ delayMs) (hct : startTime ≤ ct0) (htimes : ∀ t ∈ times, startTime ≤ t) :
    ∀ b ∈ (transitionBrightness lockBefore startB endB lengthMs delayMs startTime ct0 times).commands,
      min startB endB ≤ b ∧ b ≤ max startB endB ∧ b ≤ 1 ∧
      ∃ w, bluetoothSetBrightness b = .ok w := by
  intro b hb
  have hnots : ¬(startB < 0 ∨ 1 < startB) := by
    rintro (h | h) <;> linarith
  have hnote : ¬(endB < 0 ∨ 1 < endB) := by
    rintro (h | h) <;> linarith
  simp only [transitionBrightness, if_neg hnots, if_neg hnote] at hb
  obtain ⟨hmin, hmax⟩ :=
    brightnessRampValues_bounded startB endB lengthMs delayMs startTime hdelay
      times ct0 hct htimes b hb
  have hb1 : b ≤ 1 := le_trans hmax (max_le hs1 he1)
  have hb0 : 0 ≤ b := le_trans (le_min hs0 he0) hmin
  refine ⟨hmin, hmax, hb1, ⌊b / 100 * 255⌋, ?_⟩
  have hcond : ¬(1 < b / 100 ∨ b / 100 < 0) := by
    rintro (h | h)
    · have : b ≤ 100 := by linarith
      rw [lt_div_iff₀ (by norm_num : (0:ℚ) < 100)] at h
      linarith
    · rw [div_neg_iff] at h
      rcases h with ⟨h1, h2⟩ | ⟨h1, h2⟩ <;> linarith
  simp [bluetoothSetBrightness, if_neg hcond]

/-- The concrete ramp used to witness the C10 bound: readings at 0, 30, 60
emit values before the trace passes 90 ms. -/
theorem brightnessRamp_concrete_commands :
    (transitionBrightness false 0 1 100 10 0 0 [30, 60, 95]).commands
      = [0, 3/10, 6/10] := by
  norm_num [transitionBrightness, brightnessRampValues, interpolateNumber]

/-- Witness for transitionBrightness_ramp_in_range at a concrete ramp. -/
theorem transitionBrightness_ramp_in_range_witness :
    ((0:ℚ) ≤ 0 ∧ (0:ℚ) ≤ 1 ∧ (0:ℚ) ≤ 10 ∧ (0:ℚ) ≤ 0 ∧
      (∀ t ∈ [(30:ℚ), 60, 95], (0:ℚ) ≤ t) ∧
      (3:ℚ)/10 ∈ (transitionBrightness false 0 1 100 10 0 0 [30, 60, 95]).commands) ∧
    (min (0:ℚ) 1 ≤ 3/10 ∧ (3:ℚ)/10 ≤ max (0:ℚ) 1 ∧ (3:ℚ)/10 ≤ 1 ∧
      ∃ w, bluetoothSetBrightness (3/10) = .ok w) :=
  ⟨⟨by norm_num, by norm_num, by norm_num, by norm_num, by norm_num,
    by norm_num [transitionBrightness, brightnessRampValues, interpolateNumber]⟩,
   transitionBrightness_ramp_in_range 0 1 100 10 0 0 [30, 60, 95] false
     (by norm_num) (by norm_num) (by norm_num) (by norm_num) (by norm_num)
     (by norm_num) (by norm_num) (3/10)
     (by norm_num [transitionBrightness, brightnessRampValues, interpolateNumber])⟩

/-- Claim C1 (documenting the code bug): a transitionBrightness call made
while brightnessTransitionLock is already true logs the skip warning but,
because the source lacks a return statement, still runs the ramp and issues a
setBrightness command, contrary to the drop policy the source's own warning
message describes. -/
theorem transitionBrightness_locked_call_still_runs :
    (transitionBrightness true 0 1 100 10 0 0 []).warnedLocked = true ∧
    (transitionBrightness true 0 1 100 10 0 0 []).commands = [0] := by
  norm_num [transitionBrightness, brightnessRampValues, interpolateNumber]

/-- Counterexample to claim C6 as stated: a call with start brightness 150
(outside any reading of the valid range) is rejected with no actuator
command, but the transition lock flag is not left unchanged: it was false on
entry and is true after the throw, because the source sets the lock before
validating. -/
theorem transitionBrightness_invalid_mutates_lock :
    (transitionBrightness false 150 (1/2) 1000 50 0 0 []).thrown.isSome = true ∧
    (transitionBrightness false 150 (1/2) 1000 50 0 0 []).commands = [] ∧
    (transitionBrightness false 150 (1/2) 1000 50 0 0 []).lockAfter = true := by
  norm_num [transitionBrightness]

/-- Claim C6 as amended: the valid range the source checks is 0..1, not
0..100; a call with start or end outside 0..1 throws immediately and issues
no actuator command, but the brightness transition lock has already been set
to true and stays true. -/
theorem transitionBrightness_invalid_rejected (lockBefore : Bool)
    (startB endB lengthMs delayMs startTime ct0 : ℚ) (times : List ℚ)
    (h : startB < 0 ∨ 1 < startB ∨ endB < 0 ∨ 1 < endB) :
    (transitionBrightness lockBefore startB endB lengthMs delayMs startTime ct0 times).thrown.isSome = true ∧
    (transitionBrightness lockBefore startB endB lengthMs delayMs startTime ct0 times).commands = [] ∧
    (transitionBrightness lockBefore startB endB lengthMs delayMs startTime ct0 times).lockAfter = true := by
  by_cases hs : startB < 0 ∨ 1 < startB
  · simp [transitionBrightness, if_pos hs]
  · have he : endB < 0 ∨ 1 < endB := by
      rcases h with h | h | h | h
      · exact absurd (Or.inl h) hs
      · exact absurd (Or.inr h) hs
      · exact Or.inl h
      · exact Or.inr h
    simp [transitionBrightness, if_neg hs, if_pos he]

/-- Witness for transitionBrightness_invalid_rejected at a concrete invalid
end brightness. -/
theorem transitionBrightness_invalid_rejected_witness :
    ((1:ℚ)/2 < 0 ∨ (1:ℚ) < 1/2 ∨ (-3:ℚ) < 0 ∨ (1:ℚ) < -3) ∧
    ((transitionBrightness true (1/2) (-3) 500 50 0 0 []).thrown.isSome = true ∧
     (transitionBrightness true (1/2) (-3) 500 50 0 0 []).commands = [] ∧
     (transitionBrightness true (1/2) (-3) 500 50 0 0 []).lockAfter = true) :=
  ⟨by norm_num,
   transitionBrightness_invalid_rejected true (1/2) (-3) 500 50 0 0 [] (by norm_num)⟩

/-- Counterexample to claim C9 as stated: the newSegment handler passes
abs(loudness_start + 50) / 100 through unclamped; at loudness_start = 60 the
start brightness passed to transitionBrightness is 1.1, outside the valid
0..1 brightness range, so no clamping takes place. -/
theorem segment_brightness_not_clamped :
    (onNewSegmentBrightnessCall exLoudSegment exNextSegment).1 = 11/10 ∧
    1 < (onNewSegmentBrightnessCall exLoudSegment exNextSegment).1 := by
  have habs : |(60:ℚ) + 50| = 110 := by
    rw [abs_of_nonneg (by norm_num : (0:ℚ) ≤ 60 + 50)]
    norm_num
  constructor <;>
    · simp only [onNewSegmentBrightnessCall, segmentBrightnessArg, exLoudSegment]
      rw [habs]
      norm_num

/-- Claim C9 as amended: the start and end brightness the coordinator passes
equal abs(loudness_start + 50) / 100 of the current and next segment with no
clamping; when that value exceeds 1 the downstream transitionBrightness call
rejects it instead of clamping. -/
theorem segment_brightness_formula (current next : Segment) (lockBefore : Bool)
    (delayMs startTime ct0 : ℚ) (times : List ℚ)
    (h : 1 < |current.loudness_start + 50| / 100) :
    (onNewSegmentBrightnessCall current next).1 = |current.loudness_start + 50| / 100 ∧
    (onNewSegmentBrightnessCall current next).2.1 = |next.loudness_start + 50| / 100 ∧
    (transitionBrightness lockBefore (onNewSegmentBrightnessCall current next).1
      (onNewSegmentBrightnessCall current next).2.1
      (onNewSegmentBrightnessCall current next).2.2 delayMs startTime ct0 times).thrown.isSome
      = true := by
  refine ⟨rfl, rfl, ?_⟩
  have hcond : segmentBrightnessArg current.loudness_start < 0 ∨
      1 < segmentBrightnessArg current.loudness_start :=
    Or.inr h
  simp [onNewSegmentBrightnessCall, transitionBrightness, if_pos hcond]

/-- Witness for segment_brightness_formula at the 60 dB segment. -/
theorem segment_brightness_formula_witness :
    (1 < |(60:ℚ) + 50| / 100) ∧
    ((onNewSegmentBrightnessCall exLoudSegment exNextSegment).1
        = |exLoudSegment.loudness_start + 50| / 100 ∧
     (onNewSegmentBrightnessCall exLoudSegment exNextSegment).2.1
        = |exNextSegment.loudness_start + 50| / 100 ∧
     (transitionBrightness false (onNewSegmentBrightnessCall exLoudSegment exNextSegment).1
        (onNewSegmentBrightnessCall exLoudSegment exNextSegment).2.1
        (onNewSegmentBrightnessCall exLoudSegment exNextSegment).2.2 50 0 0 []).thrown.isSome
        = true) :=
  ⟨by rw [abs_of_nonneg (by norm_num : (0:ℚ) ≤ 60 + 50)]; norm_num,
   segment_brightness_formula exLoudSegment exNextSegment false 50 0 0 []
     (by simp only [exLoudSegment]
         rw [abs_of_nonneg (by norm_num : (0:ℚ) ≤ 60 + 50)]
         norm_num)⟩

/-- The _syncInterval scan returns none exactly when no interval contains the
position. -/
theorem findActiveIndex_eq_none (progress : ℚ) :
    ∀ (l : List TimeInterval) (i : ℕ),
      (∀ iv ∈ l, ¬(iv.start ≤ progress ∧ progress < iv.start + iv.duration)) →
      findActiveIndex progress l i = none := by
  intro l
  induction l with
  | nil => intro i _; rfl
  | cons iv rest ih =>
    intro i h
    have hiv := h iv (List.mem_cons_self iv rest)
    simp only [findActiveIndex, if_neg hiv]
    exact ih (i + 1) (fun x hx => h x (List.mem_cons_of_mem iv hx))

/-- Counterexample to claim C8 as stated: syncing two intervals covering
0..2000 ms to position 5000 ms (past the last interval) leaves the active
index at its previous value 0 instead of clamping it to the last index 1. -/
theorem syncActiveIndex_past_last_not_clamped :
    syncActiveIndex 5000 exMsIntervals 0 = 0 ∧ exMsIntervals.length - 1 = 1 := by
  norm_num [syncActiveIndex, findActiveIndex, exMsIntervals]

/-- Claim C8 as amended: when no interval of the sequence contains the
position, the _syncInterval scan leaves the active index unchanged (the
source's for-loop never assigns); there is no clamping to the nearest
boundary. -/
theorem syncActiveIndex_no_match_unchanged (progress : ℚ) (intervals : List TimeInterval)
    (a : ℕ)
    (h : ∀ iv ∈ intervals, ¬(iv.start ≤ progress ∧ progress < iv.start + iv.duration)) :
    syncActiveIndex progress intervals a = a := by
  unfold syncActiveIndex
  rw [findActiveIndex_eq_none progress intervals 0 h]
  rfl

/-- Witness for syncActiveIndex_no_match_unchanged at position 5000 ms past
the two example intervals. -/
theorem fixLastInterval_cons_head (durSec : ℚ) (i : TimeInterval) (rest : List TimeInterval) :
    ∃ k t, fixLastInterval durSec (i :: rest) = k :: t ∧ k.start = i.start := by
  cases rest with
  | nil => exact ⟨_, _, rfl, rfl⟩
  | cons j rs => exact ⟨i, _, rfl, rfl⟩

theorem fixLastInterval_getLast (durSec : ℚ) :
    ∀ l : List TimeInterval, l ≠ [] →
      ∃ j, (fixLastInterval durSec l).getLast? = some j ∧ j.start + j.duration = durSec := by
  intro l
  induction l with
  | nil => intro h; exact absurd rfl h
  | cons i rest ih =>
    intro _
    cases rest with
    | nil =>
      refine ⟨{ i with duration := durSec - i.start }, rfl, ?_⟩
      ring
    | cons j rs =>
      obtain ⟨j0, hj0, hj0d⟩ := ih (List.cons_ne_nil j rs)
      obtain ⟨k, t, hkt, _⟩ := fixLastInterval_cons_head durSec j rs
      refine ⟨j0, ?_, hj0d⟩
      show (i :: fixLastInterval durSec (j :: rs)).getLast? = some j0
      rw [hkt] at hj0 ⊢
      rw [List.getLast?_cons_cons]
      exact hj0

theorem getLast_map_scaleToMs :
    ∀ l : List TimeInterval, (l.map scaleToMs).getLast? = l.getLast?.map scaleToMs := by
  intro l
  induction l with
  | nil => rfl
  | cons a tl ih =>
    cases tl with
    | nil => rfl
    | cons b rs =>
      show (scaleToMs a :: scaleToMs b :: List.map scaleToMs rs).getLast? = _
      rw [List.getLast?_cons_cons, List.getLast?_cons_cons]
      exact ih

/-- Claim C7: for a non-empty interval sequence the normalized output starts
at 0 ms and its last interval ends exactly at the track duration in
milliseconds. -/
theorem normalizeIntervals_endpoints (track : Track) (l : List TimeInterval) (h : l ≠ []) :
    ∃ first lastI,
      (normalizeIntervals track l).head? = some first ∧
      (normalizeIntervals track l).getLast? = some lastI ∧
      first.start = 0 ∧ lastI.start + lastI.duration = track.duration_ms := by
  cases l with
  | nil => exact absurd rfl h
  | cons i rest =>
    have hff : fixFirstInterval (i :: rest)
        = { i with start := 0, duration := i.start + i.duration } :: rest := rfl
    obtain ⟨k, t, hkt, hks⟩ := fixLastInterval_cons_head (track.duration_ms / 1000)
      { i with start := 0, duration := i.start + i.duration } rest
    obtain ⟨j, hj, hjd⟩ := fixLastInterval_getLast (track.duration_ms / 1000)
      ({ i with start := 0, duration := i.start + i.duration } :: rest)
      (List.cons_ne_nil _ _)
    refine ⟨scaleToMs k, scaleToMs j, ?_, ?_, ?_, ?_⟩
    · unfold normalizeIntervals
      rw [hff, hkt]
      rfl
    · unfold normalizeIntervals
      rw [hff, getLast_map_scaleToMs, hj]
      rfl
    · show k.start * 1000 = 0
      rw [hks]
      norm_num
    · show j.start * 1000 + j.duration * 1000 = track.duration_ms
      calc j.start * 1000 + j.duration * 1000 = (j.start + j.duration) * 1000 := by ring
        _ = track.duration_ms / 1000 * 1000 := by rw [hjd]
        _ = track.duration_ms := by field_simp

/-- Witness for normalizeIntervals_endpoints on a concrete track and
sequence. -/
theorem normalizeIntervals_endpoints_witness :
    (exGapIntervals ≠ []) ∧
    (∃ first lastI,
      (normalizeIntervals exTrack exGapIntervals).head? = some first ∧
      (normalizeIntervals exTrack exGapIntervals).getLast? = some lastI ∧
      first.start = 0 ∧ lastI.start + lastI.duration = exTrack.duration_ms) :=
  ⟨by simp [exGapIntervals],
   normalizeIntervals_endpoints exTrack exGapIntervals (by simp [exGapIntervals])⟩

/-- Counterexample to claim C4 as stated: normalizing a sequence whose
second interval starts at 2 s while the first ends at 1 s keeps the interior
gap, so the output is not contiguous. -/
theorem normalize_keeps_interior_gap :
    ¬ ContiguousSeq (normalizeIntervals exTrack exGapIntervals) := by
  norm_num [normalizeIntervals, fixFirstInterval, fixLastInterval, scaleToMs,
    ContiguousSeq, exTrack, exGapIntervals]

theorem contiguous_map_scale :
    ∀ l : List TimeInterval, ContiguousSeq l → ContiguousSeq (l.map scaleToMs) := by
  intro l
  induction l with
  | nil => intro _; trivial
  | cons a tl ih =>
    cases tl with
    | nil => intro _; trivial
    | cons b rs =>
      rintro ⟨hab, hrest⟩
      refine ⟨?_, ih hrest⟩
      show a.start * 1000 + a.duration * 1000 = b.start * 1000
      rw [← add_mul, hab]

theorem contiguous_fixFirst (l : List TimeInterval) (h : ContiguousSeq l) :
    ContiguousSeq (fixFirstInterval l) := by
  cases l with
  | nil => trivial
  | cons a tl =>
    cases tl with
    | nil => trivial
    | cons b rs =>
      obtain ⟨hab, hrest⟩ := h
      exact ⟨by rw [zero_add, hab], hrest⟩

theorem contiguous_fixLast (durSec : ℚ) :
    ∀ l : List TimeInterval, ContiguousSeq l → ContiguousSeq (fixLastInterval durSec l) := by
  intro l
  induction l with
  | nil => intro _; trivial
  | cons a tl ih =>
    cases tl with
    | nil => intro _; trivial
    | cons b rs =>
      rintro ⟨hab, hrest⟩
      obtain ⟨k, t, hkt, hks⟩ := fixLastInterval_cons_head durSec b rs
      show ContiguousSeq (a :: fixLastInterval durSec (b :: rs))
      rw [hkt]
      refine ⟨by rw [hks, hab], ?_⟩
      have := ih hrest
      rw [hkt] at this
      exact this

/-- Claim C4 as amended: normalization forces only the global start and end
of the sequence; it preserves every interior adjacency, so the output is
contiguous whenever the input already is, and interior gaps or overlaps in
the input survive in the output. -/
theorem normalizeIntervals_preserves_contiguity (track : Track) (l : List TimeInterval)
    (h : ContiguousSeq l) : ContiguousSeq (normalizeIntervals track l) :=
  contiguous_map_scale _ (contiguous_fixLast _ _ (contiguous_fixFirst _ h))

/-- Witness for normalizeIntervals_preserves_contiguity on a contiguous
sequence. -/
theorem normalizeIntervals_preserves_contiguity_witness :
    ContiguousSeq exContiguousIntervals ∧
    ContiguousSeq (normalizeIntervals exTrack exContiguousIntervals) :=
  ⟨by norm_num [ContiguousSeq, exContiguousIntervals],
   normalizeIntervals_preserves_contiguity exTrack exContiguousIntervals
     (by norm_num [ContiguousSeq, exContiguousIntervals])⟩

theorem syncActiveIndex_no_match_unchanged_witness :
    (∀ iv ∈ exMsIntervals, ¬(iv.start ≤ (5000:ℚ) ∧ (5000:ℚ) < iv.start + iv.duration)) ∧
    syncActiveIndex 5000 exMsIntervals 3 = 3 :=
  ⟨by norm_num [exMsIntervals],
   syncActiveIndex_no_match_unchanged 5000 exMsIntervals 3 (by norm_num [exMsIntervals])⟩

theorem except_bind_ok {α β ε : Type} (x : α) (f : α → Except ε β) :
    (Except.ok x : Except ε α) >>= f = f x := rfl

/-- Counterexample to claim C2 as stated: a poll tick whose fetch rejects
with a network error does not schedule the next tick; the loop stops. -/
theorem poll_network_error_not_rescheduled :
    pollRescheduled (getCurrentlyPlayingOp (.error ("network error"))
      (fun _ => .error ("network error")) 0 0 0 initialSpotifyState) = false := rfl

/-- Claim C2 as amended: _getCurrentlyPlaying has no try/catch, so a failed
fetch of the currently-playing state propagates the error out of the tick;
_pingSpotify is never reached and no next poll tick is scheduled, stopping
the poll loop on the first network error. -/
theorem getCurrentlyPlaying_error_propagates (e : String)
    (fetchTrack : String → Except String (Track × AudioAnalysis))
    (now later startNow : ℚ) (s : SpotifyState) :
    getCurrentlyPlayingOp (.error e) fetchTrack now later startNow s = .error e := rfl

theorem stopTrackKind_analysis (k : Kind) (s : SpotifyState) :
    (stopTrackKind k s).currentTrackAnalysis = s.currentTrackAnalysis := by
  cases h : s.currentTrackAnalysis with
  | none => simp [stopTrackKind, h]
  | some a =>
    cases h2 : (a.get k).nextIntervalTimeout with
    | none => simp [stopTrackKind, h, h2]
    | some id => simp [stopTrackKind, clearTimeoutOp, h, h2]

theorem stopTrackKind_track (k : Kind) (s : SpotifyState) :
    (stopTrackKind k s).currentTrack = s.currentTrack := by
  cases h : s.currentTrackAnalysis with
  | none => simp [stopTrackKind, h]
  | some a =>
    cases h2 : (a.get k).nextIntervalTimeout with
    | none => simp [stopTrackKind, h, h2]
    | some id => simp [stopTrackKind, clearTimeoutOp, h, h2]

theorem stopTrackKind_nextTimerId (k : Kind) (s : SpotifyState) :
    (stopTrackKind k s).nextTimerId = s.nextTimerId := by
  cases h : s.currentTrackAnalysis with
  | none => simp [stopTrackKind, h]
  | some a =>
    cases h2 : (a.get k).nextIntervalTimeout with
    | none => simp [stopTrackKind, h, h2]
    | some id => simp [stopTrackKind, clearTimeoutOp, h, h2]

theorem stopTrackKind_mem (k : Kind) (s : SpotifyState) (p : ℕ × Kind)
    (hp : p ∈ (stopTrackKind k s).pendingTimers) :
    p ∈ s.pendingTimers ∧
      s.currentTrackAnalysis.map (fun a => (a.get k).nextIntervalTimeout)
        ≠ some (some p.1) := by
  cases h : s.currentTrackAnalysis with
  | none =>
    simp only [stopTrackKind, h] at hp
    exact ⟨hp, by simp⟩
  | some a =>
    cases h2 : (a.get k).nextIntervalTimeout with
    | none =>
      simp only [stopTrackKind, h, h2] at hp
      refine ⟨hp, ?_⟩
      simp [h2]
    | some id =>
      simp only [stopTrackKind, h, h2, clearTimeoutOp] at hp
      rw [List.mem_filter] at hp
      obtain ⟨hmem, hne⟩ := hp
      rw [decide_eq_true_eq] at hne
      refine ⟨hmem, ?_⟩
      intro heq
      have heq2 : some (some id) = some (some p.1) := by
        rw [← h2]
        exact heq
      have hid : id = p.1 := by
        injection heq2 with heq3
        injection heq3
      exact hne hid.symm

theorem stopTrackOp_analysis (s : SpotifyState) :
    (stopTrackOp s).currentTrackAnalysis = s.currentTrackAnalysis := by
  unfold stopTrackOp
  rw [stopTrackKind_analysis, stopTrackKind_analysis, stopTrackKind_analysis,
    stopTrackKind_analysis, stopTrackKind_analysis]

theorem stopTrackOp_track (s : SpotifyState) :
    (stopTrackOp s).currentTrack = s.currentTrack := by
  unfold stopTrackOp
  rw [stopTrackKind_track, stopTrackKind_track, stopTrackKind_track,
    stopTrackKind_track, stopTrackKind_track]

theorem stopTrackOp_nextTimerId (s : SpotifyState) :
    (stopTrackOp s).nextTimerId = s.nextTimerId := by
  unfold stopTrackOp
  rw [stopTrackKind_nextTimerId, stopTrackKind_nextTimerId, stopTrackKind_nextTimerId,
    stopTrackKind_nextTimerId, stopTrackKind_nextTimerId]

theorem stopTrackOp_pending_empty (s : SpotifyState) (hInv : TimerInv s) :
    (stopTrackOp s).pendingTimers = [] := by
  rcases hn : (stopTrackOp s).pendingTimers with _ | ⟨p, rest⟩
  · rfl
  · exfalso
    have hp : p ∈ (stopTrackOp s).pendingTimers := by
      rw [hn]; exact List.mem_cons_self p rest
    have hp5 : p ∈ (stopTrackKind .tatums (stopTrackKind .segments (stopTrackKind .sections
        (stopTrackKind .beats (stopTrackKind .bars s))))).pendingTimers := hp
    obtain ⟨hp4, hne5⟩ := stopTrackKind_mem _ _ p hp5
    obtain ⟨hp3, hne4⟩ := stopTrackKind_mem _ _ p hp4
    obtain ⟨hp2, hne3⟩ := stopTrackKind_mem _ _ p hp3
    obtain ⟨hp1, hne2⟩ := stopTrackKind_mem _ _ p hp2
    obtain ⟨hp0, hne1⟩ := stopTrackKind_mem _ _ p hp1
    have e1 : (stopTrackKind .bars s).currentTrackAnalysis = s.currentTrackAnalysis :=
      stopTrackKind_analysis _ _
    have e2 : (stopTrackKind .beats (stopTrackKind .bars s)).currentTrackAnalysis
        = s.currentTrackAnalysis := by rw [stopTrackKind_analysis, e1]
    have e3 : (stopTrackKind .sections (stopTrackKind .beats
        (stopTrackKind .bars s))).currentTrackAnalysis = s.currentTrackAnalysis := by
      rw [stopTrackKind_analysis, e2]
    have e4 : (stopTrackKind .segments (stopTrackKind .sections (stopTrackKind .beats
        (stopTrackKind .bars s)))).currentTrackAnalysis = s.currentTrackAnalysis := by
      rw [stopTrackKind_analysis, e3]
    have hmain := hInv p hp0
    cases hk : p.2 with
    | bars => rw [hk] at hmain; exact hne1 hmain
    | beats => rw [e1] at hne2; rw [hk] at hmain; exact hne2 hmain
    | sections => rw [e2] at hne3; rw [hk] at hmain; exact hne3 hmain
    | segments => rw [e3] at hne4; rw [hk] at hmain; exact hne4 hmain
    | tatums => rw [e4] at hne5; rw [hk] at hmain; exact hne5 hmain

theorem startTrackOp_ok (pos now : ℚ) (s : SpotifyState) (tr : Track)
    (a : AudioAnalysisWithInterval)
    (ht : s.currentTrack = some tr) (ha : s.currentTrackAnalysis = some a) :
    ∃ s2, startTrackOp pos now s = .ok s2 ∧
      s2.currentTrackProgress = pos ∧
      s2.currentTrack = some tr ∧
      s2.nextTimerId = s.nextTimerId + 5 ∧
      s2.pendingTimers = (s.nextTimerId + 4, Kind.tatums) :: (s.nextTimerId + 3, Kind.segments) ::
        (s.nextTimerId + 2, Kind.sections) :: (s.nextTimerId + 1, Kind.beats) ::
        (s.nextTimerId, Kind.bars) :: s.pendingTimers := by
  obtain ⟨thr, ct, cta, prog, stt, sto, nid, pt⟩ := s
  simp only at ht ha
  cases ht
  cases ha
  exact ⟨_, rfl, rfl, rfl, rfl, rfl⟩

theorem get_set_same (a : AudioAnalysisWithInterval) (k : Kind) (d : IntervalData) :
    (a.set k d).get k = d := by
  cases k <;> rfl

theorem get_set_other (a : AudioAnalysisWithInterval) (k k2 : Kind) (d : IntervalData)
    (h : k2 ≠ k) : (a.set k d).get k2 = a.get k2 := by
  cases k <;> cases k2 <;> first | (exact absurd rfl h) | rfl

/-- Starting a track from a state with no pending interval timeouts
re-establishes both timer invariants: the five freshly staged timeouts are
exactly the ones recorded in the granularity fields, with ids below the
advanced allocator. -/
theorem startTrackOp_restores_invariants (pos now : ℚ) (s : SpotifyState) (tr : Track)
    (a : AudioAnalysisWithInterval) (ht : s.currentTrack = some tr)
    (ha : s.currentTrackAnalysis = some a) (hpt : s.pendingTimers = []) :
    ∃ s2, startTrackOp pos now s = .ok s2 ∧ TimerInv s2 ∧ TimerIdInv s2 := by
  obtain ⟨thr, ct, cta, prog, stt, sto, nid, pt⟩ := s
  simp only at ht ha hpt
  cases ht
  cases ha
  cases hpt
  obtain ⟨b1, b2, b3, b4, b5⟩ := a
  refine ⟨_, rfl, ?_, ?_⟩
  · intro p hp
    have hp2 : p ∈ [(nid + 4, Kind.tatums), (nid + 3, Kind.segments), (nid + 2, Kind.sections),
        (nid + 1, Kind.beats), (nid, Kind.bars)] := hp
    simp only [List.mem_cons, List.not_mem_nil, or_false] at hp2
    rcases hp2 with h | h | h | h | h <;> subst h <;> rfl
  · intro p hp
    have hp2 : p ∈ [(nid + 4, Kind.tatums), (nid + 3, Kind.segments), (nid + 2, Kind.sections),
        (nid + 1, Kind.beats), (nid, Kind.bars)] := hp
    simp only [List.mem_cons, List.not_mem_nil, or_false] at hp2
    rcases hp2 with h | h | h | h | h <;> subst h
    · exact (by omega : nid + 4 < nid + 5)
    · exact (by omega : nid + 3 < nid + 5)
    · exact (by omega : nid + 2 < nid + 5)
    · exact (by omega : nid + 1 < nid + 5)
    · exact (by omega : nid < nid + 5)

/-- A re-anchor from any state satisfying the timer invariants succeeds and
re-establishes them, so the hypotheses of the stale-timer theorem are
maintained across re-anchors. -/
theorem reanchor_restores_invariants (s : SpotifyState) (tr : Track)
    (a : AudioAnalysisWithInterval) (ht : s.currentTrack = some tr)
    (ha : s.currentTrackAnalysis = some a) (hInv : TimerInv s) (pos now : ℚ) :
    ∃ s2, startTrackOp pos now (stopTrackOp s) = .ok s2 ∧ TimerInv s2 ∧ TimerIdInv s2 :=
  startTrackOp_restores_invariants pos now (stopTrackOp s) tr a
    (by rw [stopTrackOp_track]; exact ht)
    (by rw [stopTrackOp_analysis]; exact ha)
    (stopTrackOp_pending_empty s hInv)

/-- Firing a pending interval timeout preserves both timer invariants: the
fired timeout leaves the queue, and the replacement staged by
_incrementInterval (when not terminal) is recorded in its granularity's
nextIntervalTimeout with a fresh id. -/
theorem runTimer_preserves_invariants (t : ℕ × Kind) (s : SpotifyState)
    (hInv : TimerInv s) (hId : TimerIdInv s) (s2 : SpotifyState) (evs : List SpotifyEvent)
    (h : runTimer t s = .ok (s2, evs)) : TimerInv s2 ∧ TimerIdInv s2 := by
  unfold runTimer at h
  by_cases hmem : t ∈ s.pendingTimers
  · rw [if_pos hmem] at h
    have hat := hInv t hmem
    cases ha : s.currentTrackAnalysis with
    | none =>
      rw [ha] at hat
      exact absurd hat (by simp)
    | some a =>
      rw [ha] at hat
      have hat2 : some ((a.get t.2).nextIntervalTimeout) = some (some t.1) := hat
      have hat3 : (a.get t.2).nextIntervalTimeout = some t.1 := by
        injection hat2
      by_cases hterm : (a.get t.2).activeIndex = (a.get t.2).intervals.length - 1
      · simp only [fireIntervalOp, getIntervalOp, incrementIntervalOp, stageIntervalOp,
          setIntervalData, ha, if_pos hterm, except_bind_ok] at h
        injection h with h2
        injection h2 with h3 h4
        subst h3
        constructor
        · intro p hp
          simp only [List.mem_filter] at hp
          have hx := hInv p hp.1
          rw [ha] at hx
          exact hx
        · intro p hp
          simp only [List.mem_filter] at hp
          exact hId p hp.1
      · simp only [fireIntervalOp, getIntervalOp, incrementIntervalOp, stageIntervalOp,
          setIntervalData, ha, if_neg hterm, except_bind_ok] at h
        injection h with h2
        injection h2 with h3 h4
        subst h3
        constructor
        · intro p hp
          simp only [List.mem_cons, List.mem_filter] at hp
          rcases hp with hp | ⟨hpm, hpne⟩
          · subst hp
            simp [ha, get_set_same]
          · rw [decide_eq_true_eq] at hpne
            have hpinv := hInv p hpm
            rw [ha] at hpinv
            have hpinv2 : (a.get p.2).nextIntervalTimeout = some p.1 := by
              have hx : some ((a.get p.2).nextIntervalTimeout) = some (some p.1) := hpinv
              injection hx
            by_cases hkind : p.2 = t.2
            · exfalso
              rw [hkind] at hpinv2
              rw [hat3] at hpinv2
              have hfst : p.1 = t.1 := by
                injection hpinv2 with hv
                exact hv.symm
              exact hpne (Prod.ext hfst hkind)
            · simp only [ha, Option.map_some']
              rw [get_set_other _ _ _ _ hkind, get_set_other _ _ _ _ hkind]
              rw [hpinv2]
        · intro p hp
          simp only [List.mem_cons, List.mem_filter] at hp
          rcases hp with hp | ⟨hpm, _⟩
          · subst hp
            exact (by omega : s.nextTimerId < s.nextTimerId + 1)
          · have h5 := hId p hpm
            exact (by omega : p.1 < s.nextTimerId + 1)
  · rw [if_neg hmem] at h
    injection h with h2
    injection h2 with h3 h4
    subst h3
    exact ⟨hInv, hId⟩

/-- Claim C3: re-anchoring (stopping the current track and re-seeding and
re-syncing the interval trackers) removes every previously armed interval
timeout from the timer queue: a timer armed before the re-anchor is no longer
pending afterwards, and letting it come due fires nothing and emits zero
events. -/
theorem no_stale_timer_after_reanchor (s : SpotifyState) (tr : Track)
    (a : AudioAnalysisWithInterval)
    (ht : s.currentTrack = some tr) (ha : s.currentTrackAnalysis = some a)
    (hInv : TimerInv s) (hId : TimerIdInv s)
    (pos now : ℚ) (old : ℕ × Kind) (hold : old ∈ s.pendingTimers) :
    ∃ s2, startTrackOp pos now (stopTrackOp s) = .ok s2 ∧
      old ∉ s2.pendingTimers ∧
      runTimer old s2 = .ok (s2, []) := by
  have hempty : (stopTrackOp s).pendingTimers = [] := stopTrackOp_pending_empty s hInv
  have hct : (stopTrackOp s).currentTrack = some tr := by rw [stopTrackOp_track]; exact ht
  have hca : (stopTrackOp s).currentTrackAnalysis = some a := by
    rw [stopTrackOp_analysis]; exact ha
  have hni : (stopTrackOp s).nextTimerId = s.nextTimerId := stopTrackOp_nextTimerId s
  obtain ⟨s2, hs2, hprog, hct2, hni2, hpt2⟩ := startTrackOp_ok pos now (stopTrackOp s) tr a hct hca
  have hofs : old.1 < s.nextTimerId := hId old hold
  have hnotmem : old ∉ s2.pendingTimers := by
    rw [hpt2, hempty, hni]
    intro hmem
    simp only [List.mem_cons, List.not_mem_nil, or_false] at hmem
    rcases hmem with h | h | h | h | h <;> rw [h] at hofs <;> simp at hofs
  refine ⟨s2, hs2, hnotmem, ?_⟩
  unfold runTimer
  rw [if_neg hnotmem]

/-- Witness for no_stale_timer_after_reanchor at the concrete engine
state. -/
theorem no_stale_timer_after_reanchor_witness :
    (wState.currentTrack = some wTrack ∧ wState.currentTrackAnalysis = some wAnalysis ∧
     TimerInv wState ∧ TimerIdInv wState ∧ (0, Kind.bars) ∈ wState.pendingTimers) ∧
    (∃ s2, startTrackOp 1500 2000 (stopTrackOp wState) = .ok s2 ∧
      (0, Kind.bars) ∉ s2.pendingTimers ∧
      runTimer (0, Kind.bars) s2 = .ok (s2, [])) :=
  ⟨⟨rfl, rfl,
    by intro p hp
       simp only [wState] at hp
       rw [List.mem_singleton] at hp
       subst hp
       rfl,
    by intro p hp
       simp only [wState] at hp
       rw [List.mem_singleton] at hp
       subst hp
       norm_num [wState],
    by simp [wState]⟩,
   no_stale_timer_after_reanchor wState wTrack wAnalysis rfl rfl
     (by intro p hp
         simp only [wState] at hp
         rw [List.mem_singleton] at hp
         subst hp
         rfl)
     (by intro p hp
         simp only [wState] at hp
         rw [List.mem_singleton] at hp
         subst hp
         norm_num [wState])
     1500 2000 (0, Kind.bars) (by simp [wState])⟩

/-- Claim C5: on a same-track poll tick, when the local progress differs from
the latency-compensated remote position by more than the threshold the engine
re-anchors so that the local progress equals the compensated remote position
immediately afterwards; when the difference is within the threshold the tick
leaves the engine state (clock anchor and every tracker cursor) completely
unchanged. -/
theorem drift_check_poll (s : SpotifyState) (tr : Track) (a : AudioAnalysisWithInterval)
    (ht : s.currentTrack = some tr) (ha : s.currentTrackAnalysis = some a)
    (fetchTrack : String → Except String (Track × AudioAnalysis))
    (now later startNow resProgressMs : ℚ) :
    (s.currentTrackOffsetThreshold < |s.currentTrackProgress - (resProgressMs + (later - now))| →
      ∃ s2, getCurrentlyPlayingOp (.ok (playingResponse tr.id resProgressMs))
          fetchTrack now later startNow s = .ok (s2, [], true) ∧
        s2.currentTrackProgress = resProgressMs + (later - now)) ∧
    (|s.currentTrackProgress - (resProgressMs + (later - now))| ≤ s.currentTrackOffsetThreshold →
      getCurrentlyPlayingOp (.ok (playingResponse tr.id resProgressMs))
          fetchTrack now later startNow s = .ok (s, [], true)) := by
  have hid : ¬(tr.id ≠ tr.id) := fun hne => hne rfl
  constructor
  · intro hdrift
    have hct : (stopTrackOp s).currentTrack = some tr := by rw [stopTrackOp_track]; exact ht
    have hca : (stopTrackOp s).currentTrackAnalysis = some a := by
      rw [stopTrackOp_analysis]; exact ha
    obtain ⟨s2, hs2, hprog, _, _, _⟩ :=
      startTrackOp_ok (resProgressMs + (later - now)) startNow (stopTrackOp s) tr a hct hca
    refine ⟨s2, ?_, hprog⟩
    simp only [getCurrentlyPlayingOp, playingResponse, except_bind_ok, ht]
    rw [if_neg hid, if_pos hdrift, hs2]
    rfl
  · intro hin
    simp only [getCurrentlyPlayingOp, playingResponse, except_bind_ok, ht]
    rw [if_neg hid, if_neg (not_lt.mpr hin)]

/-- Witness for drift_check_poll: at the concrete state a remote position of
5000 ms (drift 4500 ms) re-anchors to 5000, and a remote position of 450 ms
(drift 50 ms) leaves the state untouched. -/
theorem drift_check_poll_witness :
    (wState.currentTrack = some wTrack ∧ wState.currentTrackAnalysis = some wAnalysis ∧
     wState.currentTrackOffsetThreshold
        < |wState.currentTrackProgress - ((5000:ℚ) + (0 - 0))| ∧
     |wState.currentTrackProgress - ((450:ℚ) + (0 - 0))| ≤ wState.currentTrackOffsetThreshold) ∧
    (∃ s2, getCurrentlyPlayingOp (.ok (playingResponse wTrack.id 5000))
        (fun _ => .error ("unused")) 0 0 0 wState = .ok (s2, [], true) ∧
      s2.currentTrackProgress = 5000 + (0 - 0)) ∧
    (getCurrentlyPlayingOp (.ok (playingResponse wTrack.id 450))
        (fun _ => .error ("unused")) 0 0 0 wState = .ok (wState, [], true)) := by
  have hdrift : wState.currentTrackOffsetThreshold
      < |wState.currentTrackProgress - ((5000:ℚ) + (0 - 0))| := by
    simp only [wState]
    rw [show (500:ℚ) - ((5000:ℚ) + (0 - 0)) = -4500 by norm_num, abs_neg,
      abs_of_nonneg (by norm_num : (0:ℚ) ≤ 4500)]
    norm_num
  have hin : |wState.currentTrackProgress - ((450:ℚ) + (0 - 0))|
      ≤ wState.currentTrackOffsetThreshold := by
    simp only [wState]
    rw [show (500:ℚ) - ((450:ℚ) + (0 - 0)) = 50 by norm_num,
      abs_of_nonneg (by norm_num : (0:ℚ) ≤ 50)]
    norm_num
  exact ⟨⟨rfl, rfl, hdrift, hin⟩,
    (drift_check_poll wState wTrack wAnalysis rfl rfl (fun _ => .error ("unused")) 0 0 0 5000).1
      hdrift,
    (drift_check_poll wState wTrack wAnalysis rfl rfl (fun _ => .error ("unused")) 0 0 0 450).2
      hin⟩

end Lights
